import Mathlib

set_option autoImplicit false

/-!
Verification development for the react-performance exercises repository.

The repository's transferable core, as documented in its design notes, is a
Slice Subscription Registry: consumers subscribe to slices of a shared state
object via pure selectors and are notified only when their own slice changes.
The registry itself is a documented design (its implementation is not shipped
under the repository's source tree), so it is modelled here faithfully from
the design notes.  The shipped source file `src/exercise/01.js` implements the
secondary pattern: lazily loading a heavy `Globe` component behind a
`Suspense` boundary with a hover prefetch; that part is embedded directly
from the source, with the external module-loader and suspense mechanics
modelled from the design notes' summary of their contracts.
-/

namespace SliceRegistry

/-- Modelled from the spec: a Subscription of the Slice Subscription Registry
(the registry's implementation is not under the repository's source tree).
It binds a slice selector to a notification callback together with the cached
previous slice value.  Selectors and callbacks may fail (throw); a failure is
represented with `Except`.  The cache is `none` when no valid slice value has
been computed yet (e.g. the selector failed at subscription time). -/
structure Subscription (σ α : Type) where
  selector : σ → Except Unit α
  callback : α → Except Unit Unit
  cache : Option α

/-- Modelled from the spec: the Slice Subscription Registry state.  It owns
the current shared state, the association list of live subscriptions keyed by
their handle, and a fresh-handle counter. -/
structure Registry (σ α : Type) where
  state : σ
  subs : List (Nat × Subscription σ α)
  nextId : Nat

variable {σ α : Type}

/-- Look up the subscription registered under handle `i`. -/
def findSub (i : Nat) : List (Nat × Subscription σ α) → Option (Subscription σ α)
  | [] => none
  | p :: rest => if p.1 = i then some p.2 else findSub i rest

/-- Replace the cached slice value of the subscription under handle `i`. -/
def updateCache (i : Nat) (v : α) :
    List (Nat × Subscription σ α) → List (Nat × Subscription σ α)
  | [] => []
  | p :: rest =>
    (if p.1 = i then (p.1, { p.2 with cache := some v }) else p) :: updateCache i v rest

/-- Replace the callback of the subscription under handle `i` (used to state
that publish behaviour never depends on what a callback does). -/
def setCallbackList (i : Nat) (cb : α → Except Unit Unit) :
    List (Nat × Subscription σ α) → List (Nat × Subscription σ α)
  | [] => []
  | p :: rest =>
    (if p.1 = i then (p.1, { p.2 with callback := cb }) else p) :: setCallbackList i cb rest

/-- Replace one subscription's callback inside a registry. -/
def setCallback (i : Nat) (cb : α → Except Unit Unit) (reg : Registry σ α) :
    Registry σ α :=
  { reg with subs := setCallbackList i cb reg.subs }

/-- Modelled from the spec: the Equality Policy decides that a recomputed
slice is unchanged; with no previously cached value every recomputed slice
counts as changed. -/
def cacheHit (eq : α → α → Bool) : Option α → α → Bool
  | none, _ => false
  | some w, v => eq w v

/-- Modelled from the spec: process a single subscription during a publish
pass.  Recompute the selector on the new state; a selector failure is caught
and isolated (the subscription set and this subscription's cache are left
untouched).  If the Equality Policy reports a change, the cache is updated and
the callback is invoked with the new slice value — the invocation is recorded
in the returned log entry; a callback failure is likewise caught and
discarded, so it influences nothing else. -/
def processOne (eq : α → α → Bool) (s : σ) (i : Nat) (reg : Registry σ α) :
    Registry σ α × Option (Nat × α) :=
  match findSub i reg.subs with
  | none => (reg, none)
  | some sub =>
    match sub.selector s with
    | .error _ => (reg, none)
    | .ok v =>
      if cacheHit eq sub.cache v then (reg, none)
      else ({ reg with subs := updateCache i v reg.subs }, some (i, v))

/-- Modelled from the spec: the single synchronous notification pass of
`publish`, run over a worklist of handles.  It returns the updated registry
and the log of callback invocations `(handle, new slice value)`. -/
def runPass (eq : α → α → Bool) (s : σ) :
    List Nat → Registry σ α → Registry σ α × List (Nat × α)
  | [], reg => (reg, [])
  | i :: rest, reg =>
    let step := processOne eq s i reg
    let tail := runPass eq s rest step.1
    (tail.1, step.2.toList ++ tail.2)

/-- Modelled from the spec: `publish(newState)`, the single mutation entry
point.  It installs the new state and visits every live subscription in a
single pass. -/
def publish (eq : α → α → Bool) (s : σ) (reg : Registry σ α) :
    Registry σ α × List (Nat × α) :=
  runPass eq s (reg.subs.map Prod.fst) { reg with state := s }

/-- Modelled from the spec: `subscribe(selector, callback)` registers the
pair under a fresh handle with the slice of the current state as the initial
cache, and returns the handle.  No callback is invoked. -/
def subscribe (sel : σ → Except Unit α) (cb : α → Except Unit Unit)
    (reg : Registry σ α) : Registry σ α × Nat :=
  let cache := match sel reg.state with
    | .ok v => some v
    | .error _ => none
  ({ reg with
      subs := reg.subs ++ [(reg.nextId, ⟨sel, cb, cache⟩)]
      nextId := reg.nextId + 1 },
   reg.nextId)

/-- Modelled from the spec: `unsubscribe(handle)` removes the subscription;
removing an absent handle is a no-op. -/
def unsubscribe (i : Nat) (reg : Registry σ α) : Registry σ α :=
  { reg with subs := reg.subs.filter (fun p => p.1 != i) }

/-- Modelled from the spec: `getSlice(handle)` returns the most recently
cached slice for a subscription without recomputation. -/
def getSlice (i : Nat) (reg : Registry σ α) : Option α :=
  match findSub i reg.subs with
  | some sub => sub.cache
  | none => none

/-- The handles of the live subscriptions. -/
def idsOf (reg : Registry σ α) : List Nat :=
  reg.subs.map Prod.fst

/-- Registry well-formedness: handles are distinct and below the
fresh-handle counter. -/
def Wf (reg : Registry σ α) : Prop :=
  (idsOf reg).Nodup ∧ ∀ i ∈ idsOf reg, i < reg.nextId

instance (reg : Registry σ α) : Decidable (Wf reg) := by
  unfold Wf
  infer_instance

/-- The log entries a given subscription contributes to one publish: exactly
one invocation with the new slice value when the selector succeeds and the
Equality Policy reports a change, and none otherwise.  It depends only on the
subscription's own selector and cache, never on other subscriptions. -/
def expectedLog (eq : α → α → Bool) (s : σ) (i : Nat) (sub : Subscription σ α) :
    List (Nat × α) :=
  match sub.selector s with
  | .error _ => []
  | .ok v => if cacheHit eq sub.cache v then [] else [(i, v)]

/-- The registry operations available to consumers. -/
inductive Op (σ α : Type) where
  | subscribe (sel : σ → Except Unit α) (cb : α → Except Unit Unit)
  | unsubscribe (i : Nat)
  | publish (s : σ)

/-- Apply one operation; only `publish` produces callback invocations. -/
def applyOp (eq : α → α → Bool) : Op σ α → Registry σ α → Registry σ α × List (Nat × α)
  | .subscribe sel cb, reg => ((subscribe sel cb reg).1, [])
  | .unsubscribe i, reg => (unsubscribe i reg, [])
  | .publish s, reg => publish eq s reg

/-- Run a sequence of operations, concatenating the invocation logs. -/
def run (eq : α → α → Bool) : List (Op σ α) → Registry σ α → Registry σ α × List (Nat × α)
  | [], reg => (reg, [])
  | op :: ops, reg =>
    let step := applyOp eq op reg
    let tail := run eq ops step.1
    (tail.1, step.2 ++ tail.2)

end SliceRegistry

namespace LazyLoad

/-- Modelled from the spec: the status of one lazily loaded module in the
module-loading collaborator.  A load operation carries an identifier so that
callers sharing one pending operation can be seen to receive the same
handle. -/
inductive LoadStatus (μ : Type) where
  | notRequested
  | pending (op : Nat)
  | resolved (op : Nat) (m : μ)
  | failed (op : Nat)

/-- Modelled from the spec: the loader state for one module specifier,
counting how many underlying module loads were actually performed. -/
structure Loader (μ : Type) where
  status : LoadStatus μ
  underlyingLoads : Nat
  nextOp : Nat

variable {μ : Type}

/-- Modelled from the spec: `load()` returns a pending-then-resolved handle;
a call while an operation is pending (or already settled) returns that same
operation and performs no new underlying load, and a settled operation is
never retried automatically. -/
def load : Loader μ → Loader μ × Nat
  | ⟨.notRequested, n, k⟩ => (⟨.pending k, n + 1, k + 1⟩, k)
  | ⟨.pending o, n, k⟩ => (⟨.pending o, n, k⟩, o)
  | ⟨.resolved o m, n, k⟩ => (⟨.resolved o m, n, k⟩, o)
  | ⟨.failed o, n, k⟩ => (⟨.failed o, n, k⟩, o)

/-- Modelled from the spec: the signal an awaiting consumer observes —
nothing while unrequested or pending, the module on success, and a
failed-load signal on failure. -/
def loadSignal : Loader μ → Option (Except Unit μ)
  | ⟨.resolved _ m, _, _⟩ => some (.ok m)
  | ⟨.failed _, _, _⟩ => some (.error ())
  | _ => none

/-- Modelled from the spec: the module cache keyed by import specifier, as
maintained by the module-loading collaborator. -/
def ModuleCache (μ : Type) : Type :=
  String → Loader μ

/-- Trigger a load of the module named `key` in the cache; returns the
updated cache and the operation handle. -/
def loadModule (key : String) (c : ModuleCache μ) : ModuleCache μ × Nat :=
  let r := load (c key)
  (fun k => if k = key then r.1 else c k, r.2)

/-- Import specifier of the lazy Globe component:
`const Globe = React.lazy(() => import('../globe'))` in
`src/exercise/01.js`. -/
def lazyGlobeImportSpecifier : String :=
  "../globe"

/-- Import specifier of the hover prefetch:
`onMouseOver={() => import('../globe')}` in `src/exercise/01.js`. -/
def hoverPrefetchImportSpecifier : String :=
  "../globe"

/-- Element tree rendered by the `App` component, restricted to the parts
the claims are about: the checkbox, its label text, the Suspense boundary
with its fallback, and the conditionally rendered Globe element.  Sibling
lists are encoded with `seq`. -/
inductive Node where
  | input (checked : Bool)
  | text (s : String)
  | globe
  | empty
  | seq (a b : Node)
  | div (child : Node)
  | label (child : Node)
  | suspense (fallback child : Node)
  deriving DecidableEq

/-- Whether the Globe element occurs in a tree. -/
def containsGlobe : Node → Bool
  | .input _ => false
  | .text _ => false
  | .globe => true
  | .empty => false
  | .seq a b => containsGlobe a || containsGlobe b
  | .div c => containsGlobe c
  | .label c => containsGlobe c
  | .suspense _ c => containsGlobe c

/-- Whether a text node with content `s` occurs in the displayed tree; an
undisplayed suspense fallback (kept as data on the boundary) does not
count. -/
def containsText (s : String) : Node → Bool
  | .input _ => false
  | .text t => t == s
  | .globe => false
  | .empty => false
  | .seq a b => containsText s a || containsText s b
  | .div c => containsText s c
  | .label c => containsText s c
  | .suspense _ c => containsText s c

/-- The `checked` attributes of all input elements in a tree, in order. -/
def checkedInputs : Node → List Bool
  | .input b => [b]
  | .text _ => []
  | .globe => []
  | .empty => []
  | .seq a b => checkedInputs a ++ checkedInputs b
  | .div c => checkedInputs c
  | .label c => checkedInputs c
  | .suspense _ c => checkedInputs c

/-- Modelled from the spec: the suspense mechanics of the external UI
framework.  Rendering a lazy Globe element while its module is not loaded
suspends the consumer; the nearest Suspense boundary then shows its fallback
in place of its children.  Everything outside a suspended boundary is left
untouched. -/
def resolveNode (loaded : Bool) : Node → Node
  | .input b => .input b
  | .text s => .text s
  | .globe => .globe
  | .empty => .empty
  | .seq a b => .seq (resolveNode loaded a) (resolveNode loaded b)
  | .div c => .div (resolveNode loaded c)
  | .label c => .label (resolveNode loaded c)
  | .suspense fb c =>
    if !loaded && containsGlobe c then fb
    else .suspense fb (resolveNode loaded c)

/-- The element tree returned by `App` in `src/exercise/01.js` as a function
of the `showGlobe` state flag: an outer div holding the label (checkbox with
`checked={showGlobe}` and the text ` show globe`) and a div with the
Suspense boundary (fallback `Loading...`) around
`showGlobe ? <Globe /> : null`. -/
def appRender (showGlobe : Bool) : Node :=
  Node.div
    (Node.seq
      (Node.label
        (Node.seq (Node.input showGlobe) (Node.text " show globe")))
      (Node.div
        (Node.suspense (Node.div (Node.text "Loading..."))
          (if showGlobe then Node.globe else Node.empty))))

/-- Initial value of the `showGlobe` state:
`React.useState(false)` in `src/exercise/01.js`. -/
def initialShowGlobe : Bool :=
  false

/-- Modelled from the spec: rendering triggers a load of the globe module
exactly when the lazy Globe element is rendered. -/
def renderRequestsGlobeModule (n : Node) : Bool :=
  containsGlobe n

/-- The label subtree of the rendered tree — the part of the `App` output
outside the Suspense boundary. -/
def labelOf : Node → Option Node
  | .div (.seq l _) => some l
  | _ => none

/-- The state of the `App` component together with the module cache. -/
structure AppState (μ : Type) where
  showGlobe : Bool
  modules : ModuleCache μ

/-- The checkbox `onChange` handler in `src/exercise/01.js`:
`e => setShowGlobe(e.target.checked)`. -/
def handleChange (checked : Bool) (st : AppState μ) : AppState μ :=
  { st with showGlobe := checked }

/-- The checkbox `onMouseOver` handler in `src/exercise/01.js`:
`() => import('../globe')` — it triggers a load of the globe module and
discards the returned operation handle. -/
def handleMouseOver (st : AppState μ) : AppState μ :=
  { st with modules := (loadModule hoverPrefetchImportSpecifier st.modules).1 }

end LazyLoad

namespace SliceRegistry

/-- Shallow reference equality on numbers, the default Equality Policy of the
spec's registry, used in the concrete scenarios. -/
def demoEq (a b : Nat) : Bool :=
  a == b

/-- Selector of the spec's concrete scenario subscriber S1: select field `a`
of the state `{a, b}` (modelled as the first component of a pair). -/
def selFst (p : Nat × Nat) : Except Unit Nat :=
  .ok p.1

/-- Selector of the spec's concrete scenario subscriber S2: select field `b`
of the state (second component of the pair). -/
def selSnd (p : Nat × Nat) : Except Unit Nat :=
  .ok p.2

/-- A selector that always throws, for the failure-isolation scenario. -/
def selThrow (_p : Nat × Nat) : Except Unit Nat :=
  .error ()

/-- A callback that succeeds. -/
def cbOk (_v : Nat) : Except Unit Unit :=
  .ok ()

/-- A callback that throws. -/
def cbThrow (_v : Nat) : Except Unit Unit :=
  .error ()

/-- Empty registry over state `{a: 1, b: 1}` of the spec's concrete
scenario. -/
def demoReg0 : Registry (Nat × Nat) Nat :=
  { state := (1, 1), subs := [], nextId := 0 }

/-- The spec's concrete scenario registry: S1 (handle 0) selects `a`,
S2 (handle 1) selects `b`, both subscribed while the state is `{a: 1, b: 1}`. -/
def demoReg : Registry (Nat × Nat) Nat :=
  (subscribe selSnd cbOk (subscribe selFst cbOk demoReg0).1).1

/-- The failure-isolation scenario registry: the subscription under handle 0
has a throwing selector, the one under handle 1 selects `b`. -/
def demoRegThrow : Registry (Nat × Nat) Nat :=
  (subscribe selSnd cbOk (subscribe selThrow cbThrow demoReg0).1).1

end SliceRegistry

namespace LazyLoad

/-- A fresh loader for the witness scenarios. -/
def demoLoader : Loader Unit :=
  ⟨.notRequested, 0, 0⟩

/-- A module cache in which no module has been requested yet. -/
def demoCache : ModuleCache Unit :=
  fun _ => demoLoader

/-- A loader whose single load operation has failed. -/
def demoFailedLoader : Loader Unit :=
  ⟨.failed 0, 1, 1⟩

/-- The app state before any interaction. -/
def demoAppState : AppState Unit :=
  ⟨initialShowGlobe, demoCache⟩

end LazyLoad

namespace SliceRegistry

variable {σ α : Type}

@[simp]
theorem updateCache_fst (i : Nat) (v : α) (l : List (Nat × Subscription σ α)) :
    (updateCache i v l).map Prod.fst = l.map Prod.fst := by
  induction l with
  | nil => rfl
  | cons p rest ih => by_cases hp : p.1 = i <;> simp [updateCache, hp, ih]

@[simp]
theorem setCallbackList_fst (i : Nat) (cb : α → Except Unit Unit)
    (l : List (Nat × Subscription σ α)) :
    (setCallbackList i cb l).map Prod.fst = l.map Prod.fst := by
  induction l with
  | nil => rfl
  | cons p rest ih => by_cases hp : p.1 = i <;> simp [setCallbackList, hp, ih]

theorem findSub_updateCache_ne {i j : Nat} (v : α) (l : List (Nat × Subscription σ α))
    (hne : j ≠ i) : findSub j (updateCache i v l) = findSub j l := by
  have hij : i ≠ j := fun hc => hne (Eq.symm hc)
  induction l with
  | nil => rfl
  | cons p rest ih =>
    obtain ⟨k, sub⟩ := p
    by_cases hk : k = i
    · subst hk
      simp [updateCache, findSub, hij, ih]
    · simp [updateCache, findSub, hk, ih]

theorem findSub_setCallbackList_ne {i j : Nat} (cb : α → Except Unit Unit)
    (l : List (Nat × Subscription σ α)) (hne : j ≠ i) :
    findSub j (setCallbackList i cb l) = findSub j l := by
  have hij : i ≠ j := fun hc => hne (Eq.symm hc)
  induction l with
  | nil => rfl
  | cons p rest ih =>
    obtain ⟨k, sub⟩ := p
    by_cases hk : k = i
    · subst hk
      simp [setCallbackList, findSub, hij, ih]
    · simp [setCallbackList, findSub, hk, ih]

theorem findSub_setCallbackList_self (i : Nat) (cb : α → Except Unit Unit)
    (l : List (Nat × Subscription σ α)) :
    findSub i (setCallbackList i cb l)
      = (findSub i l).map (fun sub => { sub with callback := cb }) := by
  induction l with
  | nil => rfl
  | cons p rest ih =>
    obtain ⟨k, sub⟩ := p
    by_cases hk : k = i <;> simp [setCallbackList, findSub, hk, ih]

theorem mem_of_findSub_some {i : Nat} {l : List (Nat × Subscription σ α)}
    {sub : Subscription σ α} (h : findSub i l = some sub) : i ∈ l.map Prod.fst := by
  induction l with
  | nil => simp [findSub] at h
  | cons p rest ih =>
    by_cases hp : p.1 = i
    · simp [hp]
    · rw [findSub, if_neg hp] at h
      simp [ih h]

theorem findSub_eq_some_of_mem {l : List (Nat × Subscription σ α)} {i : Nat}
    {sub : Subscription σ α} (hnd : (l.map Prod.fst).Nodup) (hmem : (i, sub) ∈ l) :
    findSub i l = some sub := by
  induction l with
  | nil => cases hmem
  | cons p rest ih =>
    rcases List.mem_cons.mp hmem with h | h
    · rw [← h]
      simp [findSub]
    · have hi : i ∈ rest.map Prod.fst := List.mem_map.mpr ⟨(i, sub), h, rfl⟩
      have hp : p.1 ≠ i := by
        intro hc
        exact (List.nodup_cons.mp (by simpa using hnd)).1 (hc ▸ hi)
      rw [findSub, if_neg hp]
      exact ih (List.nodup_cons.mp (by simpa using hnd)).2 h

theorem findSub_append_of_not_mem {i : Nat} {l1 : List (Nat × Subscription σ α)}
    (l2 : List (Nat × Subscription σ α)) (h : i ∉ l1.map Prod.fst) :
    findSub i (l1 ++ l2) = findSub i l2 := by
  induction l1 with
  | nil => rfl
  | cons p rest ih =>
    have hp : p.1 ≠ i := by
      intro hc
      exact h (by simp [hc])
    rw [List.cons_append, findSub, if_neg hp]
    exact ih (fun hc => h (by simp [hc]))

theorem findSub_append_single_ne {i j : Nat} (l : List (Nat × Subscription σ α))
    (x : Subscription σ α) (hne : j ≠ i) :
    findSub j (l ++ [(i, x)]) = findSub j l := by
  have hij : i ≠ j := fun hc => hne (Eq.symm hc)
  induction l with
  | nil => simp [findSub, hij]
  | cons p rest ih =>
    by_cases hp : p.1 = j <;> simp [findSub, hp, ih]

@[simp]
theorem processOne_subs_fst (eq : α → α → Bool) (s : σ) (i : Nat) (reg : Registry σ α) :
    (processOne eq s i reg).1.subs.map Prod.fst = reg.subs.map Prod.fst := by
  cases hf : findSub i reg.subs with
  | none => simp [processOne, hf]
  | some sub =>
    cases hs : sub.selector s with
    | error e => simp [processOne, hf, hs]
    | ok v =>
      by_cases hc : cacheHit eq sub.cache v <;> simp [processOne, hf, hs, hc]

@[simp]
theorem processOne_nextId (eq : α → α → Bool) (s : σ) (i : Nat) (reg : Registry σ α) :
    (processOne eq s i reg).1.nextId = reg.nextId := by
  cases hf : findSub i reg.subs with
  | none => simp [processOne, hf]
  | some sub =>
    cases hs : sub.selector s with
    | error e => simp [processOne, hf, hs]
    | ok v =>
      by_cases hc : cacheHit eq sub.cache v <;> simp [processOne, hf, hs, hc]

theorem processOne_findSub_ne (eq : α → α → Bool) (s : σ) {i j : Nat}
    (reg : Registry σ α) (hne : j ≠ i) :
    findSub j (processOne eq s i reg).1.subs = findSub j reg.subs := by
  cases hf : findSub i reg.subs with
  | none => simp [processOne, hf]
  | some sub =>
    cases hs : sub.selector s with
    | error e => simp [processOne, hf, hs]
    | ok v =>
      by_cases hc : cacheHit eq sub.cache v
      · simp [processOne, hf, hs, hc]
      · simp [processOne, hf, hs, hc, findSub_updateCache_ne _ _ hne]

theorem processOne_snd_some {eq : α → α → Bool} {s : σ} {i : Nat}
    {reg : Registry σ α} {e : Nat × α} (h : (processOne eq s i reg).2 = some e) :
    e.1 = i ∧ i ∈ reg.subs.map Prod.fst := by
  cases hf : findSub i reg.subs with
  | none => simp [processOne, hf] at h
  | some sub =>
    cases hs : sub.selector s with
    | error e0 => simp [processOne, hf, hs] at h
    | ok v =>
      by_cases hc : cacheHit eq sub.cache v
      · simp [processOne, hf, hs, hc] at h
      · simp [processOne, hf, hs, hc] at h
        subst h
        exact ⟨rfl, mem_of_findSub_some hf⟩

theorem processOne_findSub_of_error {eq : α → α → Bool} {s : σ} {i : Nat}
    {reg : Registry σ α} {sub : Subscription σ α} {e0 : Unit}
    (hf : findSub i reg.subs = some sub) (hs : sub.selector s = .error e0) :
    (processOne eq s i reg).1 = reg := by
  simp [processOne, hf, hs]

theorem runPass_subs_fst (eq : α → α → Bool) (s : σ) (wl : List Nat) :
    ∀ reg : Registry σ α,
      (runPass eq s wl reg).1.subs.map Prod.fst = reg.subs.map Prod.fst := by
  induction wl with
  | nil => intro reg; rfl
  | cons i rest ih =>
    intro reg
    simp only [runPass]
    rw [ih, processOne_subs_fst]

theorem runPass_nextId (eq : α → α → Bool) (s : σ) (wl : List Nat) :
    ∀ reg : Registry σ α, (runPass eq s wl reg).1.nextId = reg.nextId := by
  induction wl with
  | nil => intro reg; rfl
  | cons i rest ih =>
    intro reg
    simp only [runPass]
    rw [ih, processOne_nextId]

theorem runPass_entry_mem (eq : α → α → Bool) (s : σ) (wl : List Nat) :
    ∀ (reg : Registry σ α) (e : Nat × α), e ∈ (runPass eq s wl reg).2 →
      e.1 ∈ wl ∧ e.1 ∈ reg.subs.map Prod.fst := by
  induction wl with
  | nil =>
    intro reg e he
    simp [runPass] at he
  | cons i rest ih =>
    intro reg e he
    simp only [runPass, List.mem_append] at he
    rcases he with he | he
    · cases hp : (processOne eq s i reg).2 with
      | none => rw [hp] at he; cases he
      | some e0 =>
        rw [hp] at he
        simp only [Option.toList_some, List.mem_singleton] at he
        subst he
        rcases processOne_snd_some hp with ⟨h1, h2⟩
        exact ⟨by rw [h1]; exact List.mem_cons_self _ _, by rw [h1]; exact h2⟩
    · rcases ih (processOne eq s i reg).1 e he with ⟨h1, h2⟩
      rw [processOne_subs_fst] at h2
      exact ⟨List.mem_cons_of_mem _ h1, h2⟩

theorem runPass_findSub_of_error (eq : α → α → Bool) (s : σ) (wl : List Nat) :
    ∀ (reg : Registry σ α) (i : Nat) (sub : Subscription σ α) (e0 : Unit),
      findSub i reg.subs = some sub → sub.selector s = .error e0 →
      findSub i (runPass eq s wl reg).1.subs = some sub := by
  induction wl with
  | nil => intro reg i sub e0 hf _; exact hf
  | cons j rest ih =>
    intro reg i sub e0 hf hs
    simp only [runPass]
    by_cases hji : j = i
    · subst hji
      rw [processOne_findSub_of_error hf hs]
      exact ih reg j sub e0 hf hs
    · have hf1 : findSub i (processOne eq s j reg).1.subs = some sub := by
        rw [processOne_findSub_ne eq s reg (fun hc => hji (Eq.symm hc))]
        exact hf
      exact ih _ i sub e0 hf1 hs

theorem runPass_filter_eq (eq : α → α → Bool) (s : σ) (wl : List Nat) :
    ∀ (reg : Registry σ α) (i : Nat) (sub : Subscription σ α),
      wl.Nodup → i ∈ wl → findSub i reg.subs = some sub →
      (runPass eq s wl reg).2.filter (fun e => e.1 == i) = expectedLog eq s i sub := by
  induction wl with
  | nil => intro reg i sub _ hmem _; cases hmem
  | cons j rest ih =>
    intro reg i sub hnd hmem hfind
    have hjr : j ∉ rest := (List.nodup_cons.mp hnd).1
    have hndr : rest.Nodup := (List.nodup_cons.mp hnd).2
    simp only [runPass, List.filter_append]
    by_cases hji : j = i
    · subst hji
      have htail :
          (runPass eq s rest (processOne eq s j reg).1).2.filter (fun e => e.1 == j)
            = [] := by
        rw [List.filter_eq_nil_iff]
        intro e he
        have hmemw := (runPass_entry_mem eq s rest _ e he).1
        have hne : e.1 ≠ j := fun hc => hjr (hc ▸ hmemw)
        simp [hne]
      rw [htail, List.append_nil]
      cases hs : sub.selector s with
      | error e0 => simp [processOne, hfind, hs, expectedLog]
      | ok v =>
        by_cases hc : cacheHit eq sub.cache v
        · simp [processOne, hfind, hs, hc, expectedLog]
        · simp [processOne, hfind, hs, hc, expectedLog, List.filter_singleton]
    · have hir : i ∈ rest := by
        rcases List.mem_cons.mp hmem with h | h
        · exact absurd h.symm hji
        · exact h
      have hhead : (processOne eq s j reg).2.toList.filter (fun e => e.1 == i) = [] := by
        cases hp : (processOne eq s j reg).2 with
        | none => rfl
        | some e0 =>
          have h1 := (processOne_snd_some hp).1
          have hne : e0.1 ≠ i := fun hc => hji (h1 ▸ hc)
          simp [List.filter_singleton, hne]
      rw [hhead, List.nil_append]
      have hf1 : findSub i (processOne eq s j reg).1.subs = some sub := by
        rw [processOne_findSub_ne eq s reg (fun hc => hji (Eq.symm hc))]
        exact hfind
      exact ih _ i sub hndr hir hf1

/-- Shared helper: in one publish, the invocations a subscription receives
are exactly its `expectedLog`, a function of its own selector, cache and the
new state only. -/
theorem publish_filter_eq (eq : α → α → Bool) (s : σ) (reg : Registry σ α)
    (hwf : Wf reg) {i : Nat} {sub : Subscription σ α} (hmem : (i, sub) ∈ reg.subs) :
    (publish eq s reg).2.filter (fun e => e.1 == i) = expectedLog eq s i sub := by
  unfold publish
  exact runPass_filter_eq eq s _ _ i sub hwf.1
    (List.mem_map.mpr ⟨(i, sub), hmem, rfl⟩)
    (findSub_eq_some_of_mem hwf.1 hmem)

theorem publish_subs_fst (eq : α → α → Bool) (s : σ) (reg : Registry σ α) :
    idsOf (publish eq s reg).1 = idsOf reg := by
  unfold publish idsOf
  exact runPass_subs_fst eq s _ _

theorem publish_nextId (eq : α → α → Bool) (s : σ) (reg : Registry σ α) :
    (publish eq s reg).1.nextId = reg.nextId := by
  unfold publish
  exact runPass_nextId eq s _ _

theorem publish_entry_mem_ids (eq : α → α → Bool) (s : σ) (reg : Registry σ α)
    {e : Nat × α} (he : e ∈ (publish eq s reg).2) : e.1 ∈ idsOf reg :=
  (runPass_entry_mem eq s _ _ e he).2

theorem setCallbackList_updateCache_comm (i : Nat) (cb : α → Except Unit Unit)
    (j : Nat) (v : α) (l : List (Nat × Subscription σ α)) :
    setCallbackList i cb (updateCache j v l)
      = updateCache j v (setCallbackList i cb l) := by
  induction l with
  | nil => rfl
  | cons p rest ih =>
    obtain ⟨k, sub⟩ := p
    by_cases hkj : k = j
    · subst hkj
      by_cases hki : k = i
      · subst hki
        simp [updateCache, setCallbackList, ih]
      · simp [updateCache, setCallbackList, hki, ih]
    · by_cases hki : k = i
      · subst hki
        simp [updateCache, setCallbackList, hkj, ih]
      · simp [updateCache, setCallbackList, hkj, hki, ih]

theorem processOne_setCallback (eq : α → α → Bool) (s : σ) (j i : Nat)
    (cb : α → Except Unit Unit) (reg : Registry σ α) :
    processOne eq s j (setCallback i cb reg)
      = (setCallback i cb (processOne eq s j reg).1, (processOne eq s j reg).2) := by
  by_cases hji : j = i
  · subst hji
    cases hf : findSub j reg.subs with
    | none =>
      have h2 : findSub j (setCallbackList j cb reg.subs) = none := by
        rw [findSub_setCallbackList_self, hf]
        rfl
      simp [processOne, setCallback, hf, h2]
    | some sub =>
      have h2 : findSub j (setCallbackList j cb reg.subs)
          = some { sub with callback := cb } := by
        rw [findSub_setCallbackList_self, hf]
        rfl
      cases hs : sub.selector s with
      | error e0 => simp [processOne, setCallback, hf, h2, hs]
      | ok v =>
        by_cases hc : cacheHit eq sub.cache v
        · simp [processOne, setCallback, hf, h2, hs, hc]
        · simp [processOne, setCallback, hf, h2, hs, hc,
            setCallbackList_updateCache_comm]
  · have h2 : findSub j (setCallbackList i cb reg.subs) = findSub j reg.subs :=
      findSub_setCallbackList_ne cb _ hji
    cases hf : findSub j reg.subs with
    | none => simp [processOne, setCallback, h2, hf]
    | some sub =>
      cases hs : sub.selector s with
      | error e0 => simp [processOne, setCallback, h2, hf, hs]
      | ok v =>
        by_cases hc : cacheHit eq sub.cache v
        · simp [processOne, setCallback, h2, hf, hs, hc]
        · simp [processOne, setCallback, h2, hf, hs, hc,
            setCallbackList_updateCache_comm]

theorem runPass_setCallback (eq : α → α → Bool) (s : σ) (wl : List Nat) :
    ∀ (reg : Registry σ α) (i : Nat) (cb : α → Except Unit Unit),
      runPass eq s wl (setCallback i cb reg)
        = (setCallback i cb (runPass eq s wl reg).1, (runPass eq s wl reg).2) := by
  induction wl with
  | nil => intro reg i cb; rfl
  | cons j rest ih =>
    intro reg i cb
    simp only [runPass, processOne_setCallback, ih]

theorem publish_setCallback (eq : α → α → Bool) (s : σ) (i : Nat)
    (cb : α → Except Unit Unit) (reg : Registry σ α) :
    publish eq s (setCallback i cb reg)
      = (setCallback i cb (publish eq s reg).1, (publish eq s reg).2) := by
  unfold publish
  have hw : (setCallback i cb reg).subs.map Prod.fst = reg.subs.map Prod.fst := by
    simp [setCallback]
  rw [hw]
  have hst : ({ setCallback i cb reg with state := s } : Registry σ α)
      = setCallback i cb { reg with state := s } := rfl
  rw [hst, runPass_setCallback]

theorem subscribe_ids (sel : σ → Except Unit α) (cb : α → Except Unit Unit)
    (reg : Registry σ α) :
    idsOf (subscribe sel cb reg).1 = idsOf reg ++ [reg.nextId] := by
  simp [subscribe, idsOf]

theorem unsubscribe_ids_subset {j : Nat} (reg : Registry σ α) :
    ∀ i ∈ idsOf (unsubscribe j reg), i ∈ idsOf reg := by
  intro i hi
  rcases List.mem_map.mp hi with ⟨p, hp, hfst⟩
  exact List.mem_map.mpr ⟨p, (List.mem_filter.mp hp).1, hfst⟩

theorem not_mem_ids_unsubscribe (reg : Registry σ α) (h : Nat) :
    h ∉ idsOf (unsubscribe h reg) := by
  intro hmem
  rcases List.mem_map.mp hmem with ⟨p, hp, hfst⟩
  have hb := (List.mem_filter.mp hp).2
  have hne : p.1 ≠ h := by simpa using hb
  exact hne hfst

theorem run_no_entry (eq : α → α → Bool) (h : Nat) (ops : List (Op σ α)) :
    ∀ reg : Registry σ α, h ∉ idsOf reg → h < reg.nextId →
      ∀ v : α, (h, v) ∉ (run eq ops reg).2 := by
  induction ops with
  | nil =>
    intro reg _ _ v hv
    simp [run] at hv
  | cons op rest ih =>
    intro reg hni hlt v hv
    simp only [run, List.mem_append] at hv
    rcases hv with hv | hv
    · cases op with
      | subscribe sel cb => simp [applyOp] at hv
      | unsubscribe j => simp [applyOp] at hv
      | publish s => exact hni (publish_entry_mem_ids eq s reg hv)
    · cases op with
      | subscribe sel cb =>
        refine ih _ ?_ ?_ v hv
        · rw [show (applyOp eq (Op.subscribe sel cb) reg).1
              = (subscribe sel cb reg).1 from rfl, subscribe_ids]
          intro hc
          rcases List.mem_append.mp hc with hc | hc
          · exact hni hc
          · exact Nat.ne_of_lt hlt (List.mem_singleton.mp hc)
        · exact Nat.lt_trans hlt (Nat.lt_succ_self _)
      | unsubscribe j =>
        refine ih _ ?_ ?_ v hv
        · intro hc
          exact hni (unsubscribe_ids_subset reg h hc)
        · exact hlt
      | publish s =>
        refine ih _ ?_ ?_ v hv
        · rw [show (applyOp eq (Op.publish s) reg).1 = (publish eq s reg).1 from rfl,
            publish_subs_fst]
          exact hni
        · rw [show (applyOp eq (Op.publish s) reg).1 = (publish eq s reg).1 from rfl,
            publish_nextId]
          exact hlt

/-- Claim C1: in any publish, a subscription's callback is invoked exactly
once — with the new slice value — when the Equality Policy reports that its
selector's result on the new state differs from its cached previous slice,
and zero times otherwise; its invocations equal `expectedLog`, a function of
that subscription's own selector and cache only, so whether other
subscriptions' slices changed never affects this. -/
theorem claim_C1_publish_notifies_iff_slice_changed
    (eq : α → α → Bool) (s : σ) (reg : Registry σ α) (hwf : Wf reg)
    (i : Nat) (sub : Subscription σ α) (hmem : (i, sub) ∈ reg.subs) :
    (publish eq s reg).2.filter (fun e => e.1 == i) = expectedLog eq s i sub :=
  publish_filter_eq eq s reg hwf hmem

/-- Witness for C1: the spec's concrete scenario — state `{a: 1, b: 1}`,
S1 (handle 0) selects `a`; `publish({a: 2, b: 1})` notifies S1 exactly once,
with the value 2. -/
theorem claim_C1_witness :
    (publish demoEq (2, 1) demoReg).2.filter (fun e => e.1 == 0) = [(0, 2)] := by
  have hsubs : demoReg.subs
      = [(0, ⟨selFst, cbOk, some 1⟩), (1, ⟨selSnd, cbOk, some 1⟩)] := rfl
  have hmem : ((0 : Nat), (⟨selFst, cbOk, some 1⟩ : Subscription (Nat × Nat) Nat))
      ∈ demoReg.subs := by
    rw [hsubs]
    exact List.mem_cons_self _ _
  have h := claim_C1_publish_notifies_iff_slice_changed demoEq (2, 1) demoReg
    (by decide) 0 ⟨selFst, cbOk, some 1⟩ hmem
  rw [h]
  rfl

/-- Claim C2: if one subscription's selector throws during a publish, the
registry's subscription set is unchanged, that subscription's stored entry is
untouched and it receives no notification, while every live subscription is
still processed exactly according to its own slice change (in particular an
independent subscription whose slice changed is still notified in the same
publish); moreover the outcome of a publish never depends on any
subscription's callback, so a throwing callback is likewise confined to its
own subscription. -/
theorem claim_C2_failure_isolation
    (eq : α → α → Bool) (s : σ) (reg : Registry σ α) (hwf : Wf reg)
    (i : Nat) (subi : Subscription σ α) (hmem : (i, subi) ∈ reg.subs)
    (e0 : Unit) (hthrow : subi.selector s = .error e0) :
    idsOf (publish eq s reg).1 = idsOf reg
    ∧ findSub i (publish eq s reg).1.subs = some subi
    ∧ (publish eq s reg).2.filter (fun e => e.1 == i) = []
    ∧ (∀ (j : Nat) (subj : Subscription σ α), (j, subj) ∈ reg.subs →
        (publish eq s reg).2.filter (fun e => e.1 == j) = expectedLog eq s j subj)
    ∧ (∀ (k : Nat) (cb : α → Except Unit Unit),
        (publish eq s (setCallback k cb reg)).2 = (publish eq s reg).2
        ∧ idsOf (publish eq s (setCallback k cb reg)).1 = idsOf reg) := by
  refine ⟨publish_subs_fst eq s reg, ?_, ?_, ?_, ?_⟩
  · unfold publish
    exact runPass_findSub_of_error eq s _ _ i subi e0
      (findSub_eq_some_of_mem hwf.1 hmem) hthrow
  · rw [publish_filter_eq eq s reg hwf hmem]
    unfold expectedLog
    rw [hthrow]
  · intro j subj hmj
    exact publish_filter_eq eq s reg hwf hmj
  · intro k cb
    rw [publish_setCallback]
    refine ⟨rfl, ?_⟩
    have : idsOf (setCallback k cb (publish eq s reg).1) = idsOf (publish eq s reg).1 := by
      simp [setCallback, idsOf]
    rw [this, publish_subs_fst]

/-- Witness for C2: with a throwing selector under handle 0 and S2 (handle 1)
selecting `b`, `publish({a: 1, b: 2})` leaves the subscription set `[0, 1]`
intact and still notifies S2 once with 2. -/
theorem claim_C2_witness :
    idsOf (publish demoEq (1, 2) demoRegThrow).1 = [0, 1]
    ∧ (publish demoEq (1, 2) demoRegThrow).2.filter (fun e => e.1 == 1) = [(1, 2)] := by
  have hsubs : demoRegThrow.subs
      = [(0, ⟨selThrow, cbThrow, none⟩), (1, ⟨selSnd, cbOk, some 1⟩)] := rfl
  have hmem0 : ((0 : Nat), (⟨selThrow, cbThrow, none⟩ : Subscription (Nat × Nat) Nat))
      ∈ demoRegThrow.subs := by
    rw [hsubs]
    exact List.mem_cons_self _ _
  have hmem1 : ((1 : Nat), (⟨selSnd, cbOk, some 1⟩ : Subscription (Nat × Nat) Nat))
      ∈ demoRegThrow.subs := by
    rw [hsubs]
    exact List.mem_cons_of_mem _ (List.mem_cons_self _ _)
  have h := claim_C2_failure_isolation demoEq (1, 2) demoRegThrow (by decide)
    0 ⟨selThrow, cbThrow, none⟩ hmem0 () rfl
  refine ⟨h.1.trans rfl, ?_⟩
  rw [h.2.2.2.1 1 ⟨selSnd, cbOk, some 1⟩ hmem1]
  rfl

/-- Claim C3: after `unsubscribe h` of a live-or-previously-allocated handle,
that handle's callback is never invoked again over any subsequent sequence of
operations; and even if the removal happens while a publish pass is still in
progress (any remaining worklist, which may still mention the handle), the
removed subscription is not notified in that pass. -/
theorem claim_C3_unsubscribed_never_notified
    (eq : α → α → Bool) (reg : Registry σ α) (h : Nat) (hlt : h < reg.nextId) :
    (∀ (ops : List (Op σ α)) (v : α), (h, v) ∉ (run eq ops (unsubscribe h reg)).2)
    ∧ (∀ (s : σ) (wl : List Nat) (v : α),
        (h, v) ∉ (runPass eq s wl (unsubscribe h reg)).2) := by
  constructor
  · intro ops v
    exact run_no_entry eq h ops _ (not_mem_ids_unsubscribe reg h) hlt v
  · intro s wl v hv
    exact not_mem_ids_unsubscribe reg h (runPass_entry_mem eq s wl _ _ hv).2

/-- Witness for C3: handle 0, removed from the scenario registry, receives no
notification from a subsequent `publish({a: 5, b: 5})`. -/
theorem claim_C3_witness :
    ((0 : Nat), (5 : Nat)) ∉ (run demoEq [Op.publish (5, 5)] (unsubscribe 0 demoReg)).2 :=
  (claim_C3_unsubscribed_never_notified demoEq demoReg 0 (by decide)).1
    [Op.publish (5, 5)] 5

/-- Claim C5: `getSlice` on the handle returned by `subscribe`, with no
intervening publish, returns the selector applied to the state at
subscription time (it reads the cache stored by `subscribe`). -/
theorem claim_C5_getSlice_after_subscribe
    (reg : Registry σ α) (hwf : Wf reg) (sel : σ → Except Unit α)
    (cb : α → Except Unit Unit) (v : α) (hv : sel reg.state = .ok v) :
    getSlice (subscribe sel cb reg).2 (subscribe sel cb reg).1 = some v := by
  have hfresh : reg.nextId ∉ reg.subs.map Prod.fst := by
    intro hc
    exact Nat.lt_irrefl _ (hwf.2 _ hc)
  have hsubs : (subscribe sel cb reg).1.subs
      = reg.subs ++ [(reg.nextId, ⟨sel, cb, some v⟩)] := by
    simp [subscribe, hv]
  have h2 : (subscribe sel cb reg).2 = reg.nextId := rfl
  unfold getSlice
  rw [h2, hsubs, findSub_append_of_not_mem _ hfresh]
  simp [findSub]

/-- Witness for C5: subscribing the selector of field `a` while the state is
`{a: 1, b: 1}` and reading the slice at once yields 1. -/
theorem claim_C5_witness :
    getSlice (subscribe selFst cbOk demoReg0).2 (subscribe selFst cbOk demoReg0).1
      = some 1 :=
  claim_C5_getSlice_after_subscribe demoReg0 (by decide) selFst cbOk 1 rfl

/-- Claim C6: `unsubscribe` is idempotent — removing an absent handle is a
no-op that leaves the registry (in particular its subscription set) entirely
unchanged, and a repeated unsubscribe of the same handle changes nothing
further; being a total function it raises no error. -/
theorem claim_C6_unsubscribe_idempotent (reg : Registry σ α) (i : Nat) :
    (i ∉ idsOf reg → unsubscribe i reg = reg)
    ∧ unsubscribe i (unsubscribe i reg) = unsubscribe i reg := by
  constructor
  · intro hni
    have hall : ∀ p ∈ reg.subs, (p.1 != i) = true := by
      intro p hp
      have hne : p.1 ≠ i := fun hc => hni (List.mem_map.mpr ⟨p, hp, hc⟩)
      simpa using hne
    have hfe : reg.subs.filter (fun p => p.1 != i) = reg.subs :=
      List.filter_eq_self.mpr hall
    obtain ⟨st, subs, nid⟩ := reg
    simp only [unsubscribe] at hfe ⊢
    rw [hfe]
  · obtain ⟨st, subs, nid⟩ := reg
    simp only [unsubscribe]
    rw [List.filter_filter]
    simp

/-- Witness for C6: handle 5 was never registered in the scenario registry,
so unsubscribing it is a no-op, and doing it twice equals doing it once. -/
theorem claim_C6_witness :
    unsubscribe 5 demoReg = demoReg
    ∧ unsubscribe 5 (unsubscribe 5 demoReg) = unsubscribe 5 demoReg :=
  ⟨(claim_C6_unsubscribe_idempotent demoReg 5).1 (by decide),
   (claim_C6_unsubscribe_idempotent demoReg 5).2⟩

/-- Claim C7: `subscribe` only registers the selector/callback pair and
returns the fresh handle: it produces no callback invocation, and every other
handle's stored subscription — cache included, hence also its notification
behaviour in later publishes — is unchanged. -/
theorem claim_C7_subscribe_frame
    (eq : α → α → Bool) (reg : Registry σ α) (sel : σ → Except Unit α)
    (cb : α → Except Unit Unit) :
    (applyOp eq (Op.subscribe sel cb) reg).2 = []
    ∧ (subscribe sel cb reg).2 = reg.nextId
    ∧ ∀ j : Nat, j ≠ reg.nextId →
        findSub j (subscribe sel cb reg).1.subs = findSub j reg.subs := by
  refine ⟨rfl, rfl, ?_⟩
  intro j hj
  exact findSub_append_single_ne _ _ hj

/-- Witness for C7: subscribing S1's selector to the empty registry invokes
no callback, returns handle 0, and leaves the (absent) entry of handle 5
unchanged. -/
theorem claim_C7_witness :
    (applyOp demoEq (Op.subscribe selFst cbOk) demoReg0).2 = []
    ∧ (subscribe selFst cbOk demoReg0).2 = 0
    ∧ findSub 5 (subscribe selFst cbOk demoReg0).1.subs = findSub 5 demoReg0.subs := by
  have h := claim_C7_subscribe_frame demoEq demoReg0 selFst cbOk
  exact ⟨h.1, h.2.1, h.2.2 5 (by decide)⟩

end SliceRegistry

namespace LazyLoad

variable {μ : Type}

theorem load_notRequested (L : Loader μ) (h : L.status = .notRequested) :
    load L = (⟨.pending L.nextOp, L.underlyingLoads + 1, L.nextOp + 1⟩, L.nextOp) := by
  obtain ⟨st, n, k⟩ := L
  cases st <;> simp_all [load]

theorem load_pending (L : Loader μ) (o : Nat) (h : L.status = .pending o) :
    load L = (L, o) := by
  obtain ⟨st, n, k⟩ := L
  cases st <;> simp_all [load]

theorem load_failed (L : Loader μ) (o : Nat) (h : L.status = .failed o) :
    load L = (L, o) := by
  obtain ⟨st, n, k⟩ := L
  cases st <;> simp_all [load]

theorem loadSignal_failed (L : Loader μ) (o : Nat) (h : L.status = .failed o) :
    loadSignal L = some (Except.error ()) := by
  obtain ⟨st, n, k⟩ := L
  cases st <;> simp_all [loadSignal]

/-- Claim C4: a `load()` call while a previous one is still pending returns
the very same pending operation and performs no second underlying load — a
fresh load performs exactly one; and in the exercise source the hover
prefetch import and the lazy Globe component import name the same module
`'../globe'`, so prefetching and then rendering the lazy component share one
underlying load and one operation handle. -/
theorem claim_C4_single_shared_load (μ : Type) :
    (∀ L : Loader μ, L.status = .notRequested →
       (load L).1.underlyingLoads = L.underlyingLoads + 1
       ∧ load (load L).1 = ((load L).1, (load L).2))
    ∧ (∀ (L : Loader μ) (o : Nat), L.status = .pending o → load L = (L, o))
    ∧ lazyGlobeImportSpecifier = hoverPrefetchImportSpecifier
    ∧ (∀ c : ModuleCache μ,
        (c hoverPrefetchImportSpecifier).status = .notRequested →
        (loadModule lazyGlobeImportSpecifier
            (loadModule hoverPrefetchImportSpecifier c).1).2
          = (loadModule hoverPrefetchImportSpecifier c).2
        ∧ ((loadModule lazyGlobeImportSpecifier
              (loadModule hoverPrefetchImportSpecifier c).1).1
             lazyGlobeImportSpecifier).underlyingLoads
          = (c hoverPrefetchImportSpecifier).underlyingLoads + 1) := by
  refine ⟨?_, ?_, rfl, ?_⟩
  · intro L h
    rw [load_notRequested L h]
    exact ⟨rfl, rfl⟩
  · intro L o h
    exact load_pending L o h
  · intro c h
    have hspec : lazyGlobeImportSpecifier = hoverPrefetchImportSpecifier := rfl
    have hkey : (loadModule hoverPrefetchImportSpecifier c).1 lazyGlobeImportSpecifier
        = (load (c hoverPrefetchImportSpecifier)).1 := by
      show (if lazyGlobeImportSpecifier = hoverPrefetchImportSpecifier
          then (load (c hoverPrefetchImportSpecifier)).1
          else c lazyGlobeImportSpecifier)
        = (load (c hoverPrefetchImportSpecifier)).1
      rw [if_pos hspec]
    have h1 := load_notRequested (c hoverPrefetchImportSpecifier) h
    have hl2 : (loadModule lazyGlobeImportSpecifier
          (loadModule hoverPrefetchImportSpecifier c).1).1 lazyGlobeImportSpecifier
        = (load ((loadModule hoverPrefetchImportSpecifier c).1
            lazyGlobeImportSpecifier)).1 := by
      show (if lazyGlobeImportSpecifier = lazyGlobeImportSpecifier
          then (load ((loadModule hoverPrefetchImportSpecifier c).1
              lazyGlobeImportSpecifier)).1
          else (loadModule hoverPrefetchImportSpecifier c).1 lazyGlobeImportSpecifier)
        = (load ((loadModule hoverPrefetchImportSpecifier c).1
            lazyGlobeImportSpecifier)).1
      rw [if_pos rfl]
    constructor
    · show (load ((loadModule hoverPrefetchImportSpecifier c).1
          lazyGlobeImportSpecifier)).2
        = (load (c hoverPrefetchImportSpecifier)).2
      rw [hkey, h1]
      rfl
    · rw [hl2, hkey, h1]
      rfl

/-- Witness for C4: starting from a cache with nothing requested, the hover
prefetch followed by the lazy import performs exactly one underlying load of
`'../globe'`, and a fresh direct `load()` behaves the same way. -/
theorem claim_C4_witness :
    (load demoLoader).1.underlyingLoads = demoLoader.underlyingLoads + 1
    ∧ load (load demoLoader).1 = ((load demoLoader).1, (load demoLoader).2)
    ∧ ((loadModule lazyGlobeImportSpecifier
          (loadModule hoverPrefetchImportSpecifier demoCache).1).1
         lazyGlobeImportSpecifier).underlyingLoads
      = (demoCache hoverPrefetchImportSpecifier).underlyingLoads + 1 := by
  have h := claim_C4_single_shared_load Unit
  exact ⟨(h.1 demoLoader rfl).1, (h.1 demoLoader rfl).2,
    (h.2.2.2 demoCache rfl).2⟩

/-- Claim C8: while the globe module is requested but unresolved, only the
Suspense-wrapped Globe subtree is replaced by the `Loading...` fallback; the
checkbox outside the boundary stays present with its `checked` state, the
label subtree is untouched by resolution, no fallback is shown when the
globe is not requested or once the module is loaded, and the loaded tree
shows the Globe content. -/
theorem claim_C8_suspense_fallback_isolation :
    ∀ b loaded : Bool,
      checkedInputs (resolveNode loaded (appRender b)) = [b]
      ∧ labelOf (resolveNode loaded (appRender b)) = labelOf (appRender b)
      ∧ containsText "Loading..." (resolveNode false (appRender true)) = true
      ∧ containsGlobe (resolveNode false (appRender true)) = false
      ∧ containsText "Loading..." (resolveNode loaded (appRender false)) = false
      ∧ containsGlobe (resolveNode true (appRender true)) = true
      ∧ containsText "Loading..." (resolveNode true (appRender b)) = false := by
  intro b loaded
  cases b <;> cases loaded <;> decide

/-- Claim C9: the hover prefetch is a fire-and-forget `load()` — it leaves
the component's `showGlobe` state and rendered output unchanged and merely
runs `load` on the `'../globe'` cache entry, its operation handle being
discarded; and a failed load is surfaced to the awaiting consumer as a
failed-load signal while `load` on a failed entry performs no automatic
retry. -/
theorem claim_C9_prefetch_fire_and_forget (μ : Type) :
    (∀ st : AppState μ,
       (handleMouseOver st).showGlobe = st.showGlobe
       ∧ appRender (handleMouseOver st).showGlobe = appRender st.showGlobe
       ∧ (handleMouseOver st).modules hoverPrefetchImportSpecifier
           = (load (st.modules hoverPrefetchImportSpecifier)).1)
    ∧ (∀ (L : Loader μ) (o : Nat), L.status = .failed o →
       loadSignal L = some (Except.error ()) ∧ load L = (L, o)) := by
  constructor
  · intro st
    refine ⟨rfl, rfl, ?_⟩
    simp [handleMouseOver, loadModule]
  · intro L o h
    exact ⟨loadSignal_failed L o h, load_failed L o h⟩

/-- Witness for C9: hovering in the initial app state changes no component
state, and a failed loader yields the failed-load signal without retry. -/
theorem claim_C9_witness :
    (handleMouseOver demoAppState).showGlobe = demoAppState.showGlobe
    ∧ loadSignal demoFailedLoader = some (Except.error ())
    ∧ load demoFailedLoader = (demoFailedLoader, 0) := by
  have h := claim_C9_prefetch_fire_and_forget Unit
  exact ⟨(h.1 demoAppState).1, (h.2 demoFailedLoader 0 rfl).1,
    (h.2 demoFailedLoader 0 rfl).2⟩

/-- Claim C10: in every reachable `App` state, the Globe element is rendered
iff `showGlobe` is true, the checkbox's `checked` attribute equals
`showGlobe`, and the initial state has `showGlobe = false`, so the initial
render requests no globe module load. -/
theorem claim_C10_globe_iff_showGlobe :
    ∀ b : Bool,
      containsGlobe (appRender b) = b
      ∧ checkedInputs (appRender b) = [b]
      ∧ initialShowGlobe = false
      ∧ renderRequestsGlobeModule (appRender initialShowGlobe) = false := by
  intro b
  cases b <;> decide

end LazyLoad
